import Mathlib

/-!
Verification of the `FileSystem` gateway of the tex-parser repository
(`src/tex_parser/file/file_system.py`).

The filesystem state visible to the Python code is modelled as a tree of
named objects: a regular file carries its byte content and its recorded
last-modification time, a directory carries a finite association list of
named children.  A path is the sequence of its name components; joining
paths (`os.path.join`) is list append, and a path produced by
`os.path.relpath(full, root)` is the component list of `full` with the
components of `root` removed from the front.  The empty component list
stands for the empty path string, for which every Python `os.path` query
(`isfile`, `isdir`, `exists`) returns `False`.

Each of the nine gateway operations is translated from the Python source
in state-passing style `Entries → ... → result × Entries`: the second
component is the filesystem state after the call, so that frame properties
(queries leave the state unchanged; failed preconditions leave the state
unchanged) are statable.  Errors mirror the exceptions the source raises:
`Err.notFound` for `FileNotFoundError`, `Err.alreadyExists` for
`FileExistsError`, `Err.osFailure` for the wrapped `OSError`.
-/

set_option maxHeartbeats 1000000

namespace TexParser

/-- Error kinds of the gateway: `notFound` is Python's `FileNotFoundError`,
`alreadyExists` is `FileExistsError`, `osFailure` is the wrapped `OSError`
raised when an underlying OS call fails. -/
inductive Err where
  | notFound
  | alreadyExists
  | osFailure
deriving DecidableEq, Repr

/-- A path is its list of name components; `[]` models the empty path
string, which no OS query recognises as an existing object. -/
abbrev Path := List String

mutual
/-- A filesystem object: a regular file with its byte content and its
last-modification time (whole seconds, and the sub-second nanoseconds that
`int(os.stat(p).st_mtime)` discards), or a directory with its entries. -/
inductive FSTree where
  | file (content : List Nat) (mtimeSec : Nat) (mtimeNs : Nat) : FSTree
  | dir (entries : Entries) : FSTree
/-- Entries of a directory: an association list from child name to child
object.  A real directory never holds two children with the same name;
that invariant is `Entries.nodupKeys` below and is assumed where needed. -/
inductive Entries where
  | nil : Entries
  | cons (name : String) (tree : FSTree) (rest : Entries) : Entries
end

/-- Look up the child of a directory by name (first match). -/
def Entries.lookup : Entries → String → Option FSTree
  | .nil, _ => none
  | .cons m t es, n => if m = n then some t else es.lookup n

/-- Follow a path of components down from an object. -/
def FSTree.find : FSTree → Path → Option FSTree
  | t, [] => some t
  | .file _ _ _, _ :: _ => none
  | .dir es, n :: rest =>
    match es.lookup n with
    | some t => t.find rest
    | none => none

/-- Resolve a path against the filesystem state (the entries of the root
directory).  The empty path resolves to nothing, matching Python, where
`os.path.exists("")` is `False`. -/
def resolve (es : Entries) : Path → Option FSTree
  | [] => none
  | n :: rest =>
    match es.lookup n with
    | some t => t.find rest
    | none => none

/-- Names of the children of a directory, in directory order
(`os.listdir`). -/
def Entries.names : Entries → List String
  | .nil => []
  | .cons n _ es => n :: es.names

/-- Whether some child has the given name. -/
def Entries.hasKey : Entries → String → Bool
  | .nil, _ => false
  | .cons m _ es, n => if m = n then true else es.hasKey n

/-- Child names are pairwise distinct. -/
def Entries.nodupKeys : Entries → Bool
  | .nil => true
  | .cons m _ es => !es.hasKey m && es.nodupKeys

mutual
/-- Well-formedness of an object: every directory in it has pairwise
distinct child names.  Every filesystem reachable through the OS satisfies
this. -/
def FSTree.wf : FSTree → Bool
  | .file _ _ _ => true
  | .dir es => es.nodupKeys && es.wfChildren
/-- Well-formedness of every child object. -/
def Entries.wfChildren : Entries → Bool
  | .nil => true
  | .cons _ t es => t.wf && es.wfChildren
end

/-- Well-formedness of the filesystem state. -/
def stateWf (es : Entries) : Bool := es.nodupKeys && es.wfChildren

/-- Replace the first child with the given name. -/
def Entries.replaceFirst : Entries → String → FSTree → Entries
  | .nil, _, _ => .nil
  | .cons m t es, n, t' =>
    if m = n then .cons m t' es else .cons m t (es.replaceFirst n t')

/-- Remove the first child with the given name. -/
def Entries.eraseFirst : Entries → String → Entries
  | .nil, _ => .nil
  | .cons m t es, n => if m = n then es else .cons m t (es.eraseFirst n)

mutual
/-- Relative paths of all regular files in the subtree of an object, as
produced by walking `os.walk(root)` and taking `os.path.relpath` of each
file (`os.walk` on a non-directory yields nothing).  The spec declares the
listing order irrelevant, so the walk is modelled as a single in-order
pass over each directory. -/
def walkFiles : FSTree → List Path
  | .file _ _ _ => []
  | .dir es => walkEntries es
/-- Walk of the entries of one directory. -/
def walkEntries : Entries → List Path
  | .nil => []
  | .cons n t es =>
    (match t with
     | .file _ _ _ => [[n]]
     | .dir _ => (walkFiles t).map (fun q => n :: q)) ++ walkEntries es
end

/-- Model of `os.path.isfile`. -/
def os_path_isfile (es : Entries) (p : Path) : Bool :=
  match resolve es p with
  | some (.file _ _ _) => true
  | _ => false

/-- Model of `os.path.isdir`. -/
def os_path_isdir (es : Entries) (p : Path) : Bool :=
  match resolve es p with
  | some (.dir _) => true
  | _ => false

/-- Model of `os.path.exists`. -/
def os_path_exists (es : Entries) (p : Path) : Bool :=
  (resolve es p).isSome

/-- Model of `os.path.getsize` (only reached on existing regular files). -/
def os_path_getsize (es : Entries) (p : Path) : Nat :=
  match resolve es p with
  | some (.file c _ _) => c.length
  | _ => 0

/-- Model of `int(os.stat(p).st_mtime)`: the recorded whole seconds; the
nanosecond part of the stored time is discarded (truncation of a
non-negative time toward zero). -/
def os_stat_mtime_int (es : Entries) (p : Path) : Nat :=
  match resolve es p with
  | some (.file _ sec _) => sec
  | _ => 0

/-- Model of `open(p, 'rb').read()` (only reached on existing regular
files). -/
def os_read_bytes (es : Entries) (p : Path) : List Nat :=
  match resolve es p with
  | some (.file c _ _) => c
  | _ => []

/-- Model of `os.listdir` (only reached on existing directories). -/
def os_listdir (es : Entries) (p : Path) : List String :=
  match resolve es p with
  | some (.dir sub) => sub.names
  | _ => []

/-- Model of `os.makedirs(p, exist_ok=False)` on the entries of one
directory: `none` models the call raising an `OSError` (`FileExistsError`
when the final target exists, `NotADirectoryError` when an intermediate
component is a regular file, `FileNotFoundError` on the empty path);
`some` returns the updated entries, with each created directory added to
its parent. -/
def makedirsEntries : Entries → Path → Option Entries
  | _, [] => none
  | es, n :: rest =>
    match rest with
    | [] =>
      match es.lookup n with
      | some _ => none
      | none => some (.cons n (.dir .nil) es)
    | _ :: _ =>
      match es.lookup n with
      | some (.dir sub) =>
        (makedirsEntries sub rest).map (fun sub' => es.replaceFirst n (.dir sub'))
      | some (.file _ _ _) => none
      | none =>
        (makedirsEntries .nil rest).map (fun sub' => .cons n (.dir sub') es)

/-- Model of `shutil.rmtree` on the entries of one directory: `none`
models the call raising an `OSError` (the target is not an existing
directory); `some` returns the entries with the target directory and its
whole subtree removed. -/
def rmtreeEntries : Entries → Path → Option Entries
  | _, [] => none
  | es, n :: rest =>
    match rest with
    | [] =>
      match es.lookup n with
      | some (.dir _) => some (es.eraseFirst n)
      | _ => none
    | _ :: _ =>
      match es.lookup n with
      | some (.dir sub) =>
        (rmtreeEntries sub rest).map (fun sub' => es.replaceFirst n (.dir sub'))
      | _ => none

/-- Strict UTF-8 validity of a byte sequence, as decided by Python's
`bytes.decode('utf-8')`: RFC 3629 UTF-8 — continuation bytes in
`80..BF`, no overlong encodings (leads `C0`/`C1` rejected, `E0` requires
a first continuation in `A0..BF`, `F0` requires `90..BF`), no surrogates
(`ED` caps its first continuation below `A0`), and no code point above
`U+10FFFF` (leads above `F4` rejected, `F4` caps its first continuation
below `90`). -/
def utf8Valid : List Nat → Bool
  | [] => true
  | b :: rest =>
    if b < 0x80 then utf8Valid rest
    else if b < 0xC2 then false
    else if b < 0xE0 then
      match rest with
      | b1 :: r => decide (0x80 ≤ b1 ∧ b1 < 0xC0) && utf8Valid r
      | [] => false
    else if b < 0xF0 then
      match rest with
      | b1 :: b2 :: r =>
        decide ((if b = 0xE0 then 0xA0 else 0x80) ≤ b1 ∧
                b1 < (if b = 0xED then 0xA0 else 0xC0) ∧
                0x80 ≤ b2 ∧ b2 < 0xC0) && utf8Valid r
      | _ => false
    else if b < 0xF5 then
      match rest with
      | b1 :: b2 :: b3 :: r =>
        decide ((if b = 0xF0 then 0x90 else 0x80) ≤ b1 ∧
                b1 < (if b = 0xF4 then 0x90 else 0xC0) ∧
                0x80 ≤ b2 ∧ b2 < 0xC0 ∧ 0x80 ≤ b3 ∧ b3 < 0xC0) && utf8Valid r
      | _ => false
    else false

/-- Civil date (year, month, day) of a day count since 1970-01-01
(Gregorian; the standard era-based conversion). -/
def civilFromDays (z0 : Nat) : Nat × Nat × Nat :=
  let z := z0 + 719468
  let era := z / 146097
  let doe := z % 146097
  let yoe := (doe - doe / 1460 + doe / 36524 - doe / 146096) / 365
  let doy := doe - (365 * yoe + yoe / 4 - yoe / 100)
  let mp := (5 * doy + 2) / 153
  let d := doy - (153 * mp + 2) / 5 + 1
  let m := if mp < 10 then mp + 3 else mp - 9
  let y := yoe + era * 400 + (if m ≤ 2 then 1 else 0)
  (y, m, d)

/-- Decimal digits, zero-padded on the left to two places. -/
def pad2 (n : Nat) : String :=
  if n < 10 then "0" ++ toString n else toString n

/-- Decimal digits, zero-padded on the left to four places. -/
def pad4 (n : Nat) : String :=
  if n < 10 then "000" ++ toString n
  else if n < 100 then "00" ++ toString n
  else if n < 1000 then "0" ++ toString n
  else toString n

/-- Model of `datetime.fromtimestamp(t, timezone.utc).isoformat()` for a
whole non-negative epoch second count `t`: an ISO-8601 string with date,
`T`, time of day, and the fixed UTC offset suffix `+00:00` (no fractional
seconds, since `t` is whole). -/
def isoformatUTC (t : Nat) : String :=
  let days := t / 86400
  let secs := t % 86400
  let c := civilFromDays days
  pad4 c.1 ++ "-" ++ pad2 c.2.1 ++ "-" ++ pad2 c.2.2 ++ "T" ++
    pad2 (secs / 3600) ++ ":" ++ pad2 (secs % 3600 / 60) ++ ":" ++
    pad2 (secs % 60) ++ "+00:00"

/-! The nine operations of class `FileSystem`, translated statement by
statement from the Python source.  Each takes the filesystem state and
returns its result paired with the state after the call. -/

/-- Translation of `FileSystem.is_file`: `os.path.isfile(file_path)`. -/
def is_file (es : Entries) (file_path : Path) : Bool × Entries :=
  let is_file_found := os_path_isfile es file_path
  (is_file_found, es)

/-- Translation of `FileSystem.is_directory`:
`os.path.isdir(directory_path)`. -/
def is_directory (es : Entries) (directory_path : Path) : Bool × Entries :=
  let is_directory_found := os_path_isdir es directory_path
  (is_directory_found, es)

/-- Translation of `FileSystem.is_object`: `os.path.exists(path)`. -/
def is_object (es : Entries) (path : Path) : Bool × Entries :=
  let is_present := os_path_exists es path
  (is_present, es)

/-- Translation of `FileSystem.get_file_size`: raise `FileNotFoundError`
unless `is_file`, else return `os.path.getsize(file_path)`. -/
def get_file_size (es : Entries) (file_path : Path) : Except Err Nat × Entries :=
  let is_file_found := (is_file es file_path).1
  if !is_file_found then (.error .notFound, es)
  else (.ok (os_path_getsize es file_path), es)

/-- Translation of `FileSystem.create_directory`: raise `FileExistsError`
if `is_object`, else `os.makedirs(directory_path, exist_ok=False)`,
wrapping any `OSError` of the call. -/
def create_directory (es : Entries) (directory_path : Path) : Except Err Unit × Entries :=
  let is_present := (is_object es directory_path).1
  if is_present then (.error .alreadyExists, es)
  else
    match makedirsEntries es directory_path with
    | some es' => (.ok (), es')
    | none => (.error .osFailure, es)

/-- Translation of `FileSystem.remove_directory`: raise
`FileNotFoundError` unless `is_directory`, else
`shutil.rmtree(directory_path)`, wrapping any `OSError` of the call. -/
def remove_directory (es : Entries) (directory_path : Path) : Except Err Unit × Entries :=
  let is_dir := (is_directory es directory_path).1
  if !is_dir then (.error .notFound, es)
  else
    match rmtreeEntries es directory_path with
    | some es' => (.ok (), es')
    | none => (.error .osFailure, es)

/-- Translation of `FileSystem.get_file_timestamp`: raise
`FileNotFoundError` unless `is_file`, else format
`int(os.stat(file_path).st_mtime)` with
`datetime.fromtimestamp(·, timezone.utc).isoformat()`. -/
def get_file_timestamp (es : Entries) (file_path : Path) : Except Err String × Entries :=
  let is_file_found := (is_file es file_path).1
  if !is_file_found then (.error .notFound, es)
  else
    let last_modified_timestamp_seconds := os_stat_mtime_int es file_path
    (.ok (isoformatUTC last_modified_timestamp_seconds), es)

/-- Translation of `FileSystem.is_utf8_encoded`: raise
`FileNotFoundError` unless `is_file`, else read the whole content and
report whether it decodes as UTF-8, a `UnicodeDecodeError` yielding
`False` rather than an error. -/
def is_utf8_encoded (es : Entries) (file_path : Path) : Except Err Bool × Entries :=
  let is_file_found := (is_file es file_path).1
  if !is_file_found then (.error .notFound, es)
  else
    let raw_data := os_read_bytes es file_path
    (.ok (utf8Valid raw_data), es)

/-- Translation of `FileSystem.list_files`: raise `FileNotFoundError`
unless `is_directory`; with `include_subdirectories` walk the subtree and
collect each file's path relative to the root, otherwise keep the
`os.listdir` names that are regular files under `os.path.join` (a
one-component relative path stands for the bare filename the source
returns in that branch). -/
def list_files (es : Entries) (directory_path : Path)
    (include_subdirectories : Bool) : Except Err (List Path) × Entries :=
  let is_valid_directory := (is_directory es directory_path).1
  if !is_valid_directory then (.error .notFound, es)
  else if include_subdirectories then
    let filename_list :=
      match resolve es directory_path with
      | some t => walkFiles t
      | none => []
    (.ok filename_list, es)
  else
    let filename_list :=
      ((os_listdir es directory_path).filter
        (fun f => (is_file es (directory_path ++ [f])).1)).map (fun f => [f])
    (.ok filename_list, es)

/-- Whether the path below an object reaches a regular file. -/
def FSTree.isFileAt (t : FSTree) (q : Path) : Bool :=
  match t.find q with
  | some (.file _ _ _) => true
  | _ => false

/-- Condition under which a directory can be created at a path: the path
is nonempty and every proper ancestor of it that already exists is a
directory (an ancestor that exists as a regular file blocks creation, and
below a missing ancestor nothing exists to block it). -/
def ancestorsOk (es : Entries) : Path → Bool
  | [] => false
  | [_] => true
  | n :: rest =>
    match es.lookup n with
    | some (.dir sub) => ancestorsOk sub rest
    | some (.file _ _ _) => false
    | none => true

/-- A concrete filesystem used to instantiate the theorems below: a
directory `d` holding the file `a` (bytes of `hi`, modified at epoch
second 1682000000 plus half a second), a subdirectory `s` with the file
`b`, and an empty subdirectory `e`; beside it the 9-byte file `f` (bytes
of `test data`) and the file `g` (the byte 255, which is not UTF-8). -/
def sampleFS : Entries :=
  .cons "d" (.dir (.cons "a" (.file [104, 105] 1682000000 500000000)
      (.cons "s" (.dir (.cons "b" (.file [] 3 0) .nil))
      (.cons "e" (.dir .nil) .nil))))
  (.cons "f" (.file [116, 101, 115, 116, 32, 100, 97, 116, 97] 7 0)
  (.cons "g" (.file [255] 11 0) .nil))

end TexParser

namespace TexParser

/-! Basic lemmas about `lookup`, `find` and `resolve`. -/

/-- Lookup succeeds exactly on the names listed by the directory. -/
theorem lookup_isSome_iff : ∀ (es : Entries) (n : String),
    (es.lookup n).isSome ↔ n ∈ es.names
  | .nil, n => by simp [Entries.lookup, Entries.names]
  | .cons m t rest, n => by
    by_cases h : m = n
    · simp [Entries.lookup, Entries.names, h]
    · simp [Entries.lookup, Entries.names, h, Ne.symm h, lookup_isSome_iff rest n]

/-- The key test agrees with lookup. -/
theorem hasKey_eq_isSome : ∀ (es : Entries) (n : String),
    es.hasKey n = (es.lookup n).isSome
  | .nil, _ => rfl
  | .cons m t rest, n => by
    by_cases h : m = n <;>
      simp [Entries.hasKey, Entries.lookup, h, hasKey_eq_isSome rest n]

/-- A name the directory does not hold looks up to nothing. -/
theorem lookup_eq_none (es : Entries) (n : String) (h : es.hasKey n = false) :
    es.lookup n = none := by
  rw [hasKey_eq_isSome] at h
  cases hl : es.lookup n with
  | none => rfl
  | some t => rw [hl] at h; simp at h

@[simp] theorem find_nil (t : FSTree) : t.find [] = some t := by
  cases t <;> rfl

@[simp] theorem find_file_cons (c : List Nat) (s ns : Nat) (n : String) (rest : Path) :
    (FSTree.file c s ns).find (n :: rest) = none := rfl

theorem find_dir_cons (es : Entries) (n : String) (rest : Path) :
    (FSTree.dir es).find (n :: rest) = (es.lookup n).bind (fun t => t.find rest) := by
  cases h : es.lookup n <;> simp [FSTree.find, h]

@[simp] theorem resolve_nil (es : Entries) : resolve es [] = none := rfl

theorem resolve_cons (es : Entries) (n : String) (rest : Path) :
    resolve es (n :: rest) = (es.lookup n).bind (fun t => t.find rest) := by
  cases h : es.lookup n <;> simp [resolve, h]

theorem resolve_eq_find (es : Entries) (n : String) (rest : Path) :
    resolve es (n :: rest) = (FSTree.dir es).find (n :: rest) := by
  rw [resolve_cons, find_dir_cons]

/-- Following a concatenated path follows its parts in order. -/
theorem find_append (p q : Path) : ∀ (t : FSTree),
    t.find (p ++ q) = (t.find p).bind (fun s => s.find q) := by
  induction p with
  | nil => intro t; simp
  | cons n p' ih =>
    intro t
    cases t with
    | file c s ns => simp
    | dir es =>
      rw [List.cons_append, find_dir_cons, find_dir_cons]
      cases h : es.lookup n <;> simp [ih]

/-- Resolving a concatenated nonempty path resolves its parts in order. -/
theorem resolve_append (es : Entries) (n : String) (p q : Path) :
    resolve es ((n :: p) ++ q) = (resolve es (n :: p)).bind (fun t => t.find q) := by
  rw [List.cons_append, resolve_cons, resolve_cons]
  cases h : es.lookup n <;> simp [find_append]

/-! Well-formedness is hereditary. -/

theorem wf_dir (es : Entries) :
    (FSTree.dir es).wf = (es.nodupKeys && es.wfChildren) := by
  simp [FSTree.wf]

theorem wfChildren_cons (n : String) (t : FSTree) (es : Entries) :
    (Entries.cons n t es).wfChildren = (t.wf && es.wfChildren) := by
  simp [Entries.wfChildren]

/-- Every child of a well-formed directory is well-formed. -/
theorem wfChildren_lookup : ∀ (es : Entries) (n : String) (t : FSTree),
    es.wfChildren = true → es.lookup n = some t → t.wf = true
  | .nil, n, t, _, hl => by simp [Entries.lookup] at hl
  | .cons m u rest, n, t, hw, hl => by
    rw [wfChildren_cons] at hw
    simp at hw
    by_cases h : m = n
    · simp [Entries.lookup, h] at hl
      exact hl ▸ hw.1
    · simp [Entries.lookup, h] at hl
      exact wfChildren_lookup rest n t hw.2 hl

/-- Every object found below a well-formed object is well-formed. -/
theorem wf_find : ∀ (p : Path) (t s : FSTree),
    t.wf = true → t.find p = some s → s.wf = true
  | [], t, s, hw, hf => by
    simp at hf
    exact hf ▸ hw
  | _ :: _, .file _ _ _, s, _, hf => by simp at hf
  | n :: rest, .dir es, s, hw, hf => by
    rw [find_dir_cons] at hf
    cases hl : es.lookup n with
    | none => rw [hl] at hf; simp at hf
    | some u =>
      rw [hl] at hf
      simp at hf
      rw [wf_dir] at hw
      simp at hw
      exact wf_find rest u s (wfChildren_lookup es n u hw.2 hl) hf

/-- Every object resolved in a well-formed state is well-formed. -/
theorem wf_resolve (es : Entries) (p : Path) (t : FSTree)
    (hw : stateWf es = true) (h : resolve es p = some t) : t.wf = true := by
  cases p with
  | nil => simp at h
  | cons n rest =>
    rw [resolve_cons] at h
    cases hl : es.lookup n with
    | none => rw [hl] at h; simp at h
    | some u =>
      rw [hl] at h
      simp at h
      simp [stateWf] at hw
      exact wf_find rest u t (wfChildren_lookup es n u hw.2 hl) h

end TexParser

namespace TexParser

/-! Lemmas about the recursive walk. -/

@[simp] theorem lookup_cons (m : String) (t : FSTree) (es : Entries) (n : String) :
    (Entries.cons m t es).lookup n = if m = n then some t else es.lookup n := rfl

theorem walkFiles_file (c : List Nat) (s ms : Nat) :
    walkFiles (.file c s ms) = [] := by simp [walkFiles]

theorem walkFiles_dir (es : Entries) : walkFiles (.dir es) = walkEntries es := by
  simp [walkFiles]

theorem walkEntries_nil : walkEntries .nil = [] := by simp [walkEntries]

theorem walkEntries_cons_file (n : String) (c : List Nat) (s ms : Nat) (es : Entries) :
    walkEntries (.cons n (.file c s ms) es) = [n] :: walkEntries es := by
  simp [walkEntries]

theorem walkEntries_cons_dir (n : String) (sub : Entries) (es : Entries) :
    walkEntries (.cons n (.dir sub) es) =
      (walkFiles (.dir sub)).map (fun q => n :: q) ++ walkEntries es := by
  simp [walkEntries]

theorem isFileAt_file_nil (c : List Nat) (s ms : Nat) :
    (FSTree.file c s ms).isFileAt [] = true := rfl

theorem isFileAt_file_cons (c : List Nat) (s ms : Nat) (m : String) (rest : Path) :
    (FSTree.file c s ms).isFileAt (m :: rest) = false := rfl

theorem isFileAt_dir_nil (es : Entries) : (FSTree.dir es).isFileAt [] = false := rfl

theorem isFileAt_dir_cons_lookup (es : Entries) (m : String) (rest : Path)
    (t : FSTree) (h : es.lookup m = some t) :
    (FSTree.dir es).isFileAt (m :: rest) = t.isFileAt rest := by
  simp [FSTree.isFileAt, find_dir_cons, h]

theorem isFileAt_dir_cons_none (es : Entries) (m : String) (rest : Path)
    (h : es.lookup m = none) :
    (FSTree.dir es).isFileAt (m :: rest) = false := by
  simp [FSTree.isFileAt, find_dir_cons, h]

theorem isFileAt_dir_eq_of_lookup (es es' : Entries) (m : String) (rest : Path)
    (h : es.lookup m = es'.lookup m) :
    (FSTree.dir es).isFileAt (m :: rest) = (FSTree.dir es').isFileAt (m :: rest) := by
  simp [FSTree.isFileAt, find_dir_cons, h]

/-- Every path produced by the walk starts with the name of a child of the
walked directory. -/
theorem mem_walkEntries_head : ∀ (es : Entries) (q : Path),
    q ∈ walkEntries es → ∃ m rest, q = m :: rest ∧ es.hasKey m = true
  | .nil, q, h => by
    rw [walkEntries_nil] at h
    simp at h
  | .cons n t es, q, h => by
    cases t with
    | file c s ms =>
      rw [walkEntries_cons_file] at h
      rcases List.mem_cons.mp h with h | h
      · exact ⟨n, [], h, by simp [Entries.hasKey]⟩
      · obtain ⟨m, rest, rfl, hk⟩ := mem_walkEntries_head es q h
        refine ⟨m, rest, rfl, ?_⟩
        by_cases hnm : n = m <;> simp [Entries.hasKey, hnm, hk]
    | dir sub =>
      rw [walkEntries_cons_dir] at h
      rcases List.mem_append.mp h with h | h
      · obtain ⟨q', hq', rfl⟩ := List.mem_map.mp h
        exact ⟨n, q', rfl, by simp [Entries.hasKey]⟩
      · obtain ⟨m, rest, rfl, hk⟩ := mem_walkEntries_head es q h
        refine ⟨m, rest, rfl, ?_⟩
        by_cases hnm : n = m <;> simp [Entries.hasKey, hnm, hk]

mutual
/-- Membership in the recursive walk of a well-formed object: exactly the
nonempty relative paths that reach a regular file below it. -/
theorem mem_walkFiles : ∀ (t : FSTree), t.wf = true → ∀ q : Path,
    (q ∈ walkFiles t ↔ q ≠ [] ∧ t.isFileAt q = true)
  | .file c s ms, _, q => by
    rw [walkFiles_file]
    cases q with
    | nil => simp
    | cons m rest => simp [isFileAt_file_cons]
  | .dir es, hw, q => by
    rw [wf_dir] at hw
    simp at hw
    rw [walkFiles_dir]
    exact mem_walkEntries es hw.1 hw.2 q

/-- Membership in the walk of the entries of a well-formed directory. -/
theorem mem_walkEntries : ∀ (es : Entries), es.nodupKeys = true →
    es.wfChildren = true → ∀ q : Path,
    (q ∈ walkEntries es ↔ q ≠ [] ∧ (FSTree.dir es).isFileAt q = true)
  | .nil, _, _, q => by
    rw [walkEntries_nil]
    cases q with
    | nil => simp
    | cons m rest => simp [isFileAt_dir_cons_none Entries.nil m rest rfl]
  | .cons n t es, hn, hw, q => by
    simp [Entries.nodupKeys] at hn
    obtain ⟨hk, hn2⟩ := hn
    rw [wfChildren_cons] at hw
    simp at hw
    obtain ⟨hwt, hw2⟩ := hw
    have ihes := mem_walkEntries es hn2 hw2
    cases q with
    | nil =>
      simp only [ne_eq, not_true_eq_false, false_and, iff_false]
      intro hin
      cases t with
      | file c s ms =>
        rw [walkEntries_cons_file] at hin
        rcases List.mem_cons.mp hin with h | h
        · simp at h
        · exact ((ihes []).mp h).1 rfl
      | dir sub =>
        rw [walkEntries_cons_dir] at hin
        rcases List.mem_append.mp hin with h | h
        · obtain ⟨q', _, heq⟩ := List.mem_map.mp h
          simp at heq
        · exact ((ihes []).mp h).1 rfl
    | cons m rest =>
      by_cases hm : n = m
      · subst hm
        have htail : (n :: rest) ∉ walkEntries es := by
          intro hin
          obtain ⟨m', rest', heq, hkey⟩ := mem_walkEntries_head es _ hin
          injection heq with h1 h2
          subst h1
          simp [hkey] at hk
        cases t with
        | file c s ms =>
          rw [walkEntries_cons_file]
          have hlk : (Entries.cons n (FSTree.file c s ms) es).lookup n =
              some (.file c s ms) := by simp
          rw [isFileAt_dir_cons_lookup _ _ _ _ hlk]
          cases rest with
          | nil => simp [isFileAt_file_nil]
          | cons r rs =>
            rw [isFileAt_file_cons]
            simp only [ne_eq, Bool.false_eq_true, and_false, iff_false]
            intro hin
            rcases List.mem_cons.mp hin with h | h
            · simp at h
            · exact htail h
        | dir sub =>
          rw [walkEntries_cons_dir]
          have hlk : (Entries.cons n (FSTree.dir sub) es).lookup n =
              some (.dir sub) := by simp
          rw [isFileAt_dir_cons_lookup _ _ _ _ hlk]
          have hsub := mem_walkFiles (.dir sub) hwt
          constructor
          · intro hin
            rcases List.mem_append.mp hin with hin | hin
            · obtain ⟨q', hq', heq⟩ := List.mem_map.mp hin
              have hq : q' = rest := by simpa using heq
              subst hq
              exact ⟨by simp, ((hsub _).mp hq').2⟩
            · exact absurd hin htail
          · rintro ⟨_, hfile⟩
            cases rest with
            | nil =>
              rw [isFileAt_dir_nil] at hfile
              simp at hfile
            | cons r rs =>
              apply List.mem_append.mpr
              left
              apply List.mem_map.mpr
              exact ⟨r :: rs, (hsub _).mpr ⟨by simp, hfile⟩, rfl⟩
      · have hm' : m ≠ n := fun h => hm h.symm
        have hlk : (Entries.cons n t es).lookup m = es.lookup m := by
          simp [hm]
        rw [isFileAt_dir_eq_of_lookup _ es _ _ hlk]
        cases t with
        | file c s ms =>
          rw [walkEntries_cons_file]
          constructor
          · intro hin
            rcases List.mem_cons.mp hin with h | h
            · exact absurd (show m = n ∧ rest = [] by simpa using h).1 hm'
            · exact (ihes _).mp h
          · intro h
            exact List.mem_cons.mpr (Or.inr ((ihes _).mpr h))
        | dir sub =>
          rw [walkEntries_cons_dir]
          constructor
          · intro hin
            rcases List.mem_append.mp hin with hin | hin
            · obtain ⟨q', hq', heq⟩ := List.mem_map.mp hin
              exact absurd (show n = m ∧ q' = rest by simpa using heq).1.symm hm'
            · exact (ihes _).mp hin
          · intro h
            exact List.mem_append.mpr (Or.inr ((ihes _).mpr h))
end

end TexParser

namespace TexParser

/-! Lemmas about directory creation and removal. -/

theorem makedirsEntries_nil_path (es : Entries) : makedirsEntries es [] = none := rfl

theorem makedirsEntries_single (es : Entries) (n : String) :
    makedirsEntries es [n] =
      (match es.lookup n with
       | some _ => none
       | none => some (.cons n (.dir .nil) es)) := rfl

theorem makedirsEntries_cons₂ (es : Entries) (n r : String) (rs : Path) :
    makedirsEntries es (n :: r :: rs) =
      (match es.lookup n with
       | some (.dir sub) =>
         (makedirsEntries sub (r :: rs)).map (fun sub' => es.replaceFirst n (.dir sub'))
       | some (.file _ _ _) => none
       | none =>
         (makedirsEntries .nil (r :: rs)).map (fun sub' => .cons n (.dir sub') es)) := rfl

theorem rmtreeEntries_nil_path (es : Entries) : rmtreeEntries es [] = none := rfl

theorem rmtreeEntries_single (es : Entries) (n : String) :
    rmtreeEntries es [n] =
      (match es.lookup n with
       | some (.dir _) => some (es.eraseFirst n)
       | _ => none) := rfl

theorem rmtreeEntries_cons₂ (es : Entries) (n r : String) (rs : Path) :
    rmtreeEntries es (n :: r :: rs) =
      (match es.lookup n with
       | some (.dir sub) =>
         (rmtreeEntries sub (r :: rs)).map (fun sub' => es.replaceFirst n (.dir sub'))
       | _ => none) := rfl

/-- Replacing a present child makes lookup return the replacement. -/
theorem lookup_replaceFirst_self : ∀ (es : Entries) (n : String) (t' : FSTree),
    (es.lookup n).isSome → (es.replaceFirst n t').lookup n = some t'
  | .nil, n, t', h => by simp [Entries.lookup] at h
  | .cons m t es, n, t', h => by
    by_cases hm : m = n
    · simp [Entries.replaceFirst, hm]
    · simp [Entries.replaceFirst, Entries.lookup, hm] at h ⊢
      exact lookup_replaceFirst_self es n t' h

/-- Erasing a child of a duplicate-free directory leaves no child of that
name. -/
theorem lookup_eraseFirst : ∀ (es : Entries) (n : String),
    es.nodupKeys = true → (es.eraseFirst n).lookup n = none
  | .nil, _, _ => rfl
  | .cons m t es, n, h => by
    simp [Entries.nodupKeys] at h
    by_cases hm : m = n
    · simp [Entries.eraseFirst, hm]
      exact lookup_eq_none es n (hm ▸ h.1)
    · simp [Entries.eraseFirst, Entries.lookup, hm]
      exact lookup_eraseFirst es n h.2

theorem ancestorsOk_single (es : Entries) (n : String) :
    ancestorsOk es [n] = true := rfl

theorem ancestorsOk_cons₂ (es : Entries) (n r : String) (rs : Path) :
    ancestorsOk es (n :: r :: rs) =
      (match es.lookup n with
       | some (.dir sub) => ancestorsOk sub (r :: rs)
       | some (.file _ _ _) => false
       | none => true) := rfl

/-- Below an empty directory every nonempty path can be created. -/
theorem ancestorsOk_nil_entries (n : String) (q : Path) :
    ancestorsOk .nil (n :: q) = true := by
  cases q with
  | nil => rfl
  | cons r rs =>
    rw [ancestorsOk_cons₂]
    rfl

/-- After a successful `makedirs`, every initial segment of the requested
path, the full path included, resolves to a directory. -/
theorem makedirs_resolve : ∀ (p : Path) (es es' : Entries),
    makedirsEntries es p = some es' → ∀ k, k < p.length →
    ∃ sub, resolve es' (p.take (k + 1)) = some (.dir sub)
  | [], es, es', h => by simp [makedirsEntries_nil_path] at h
  | [n], es, es', h => by
    intro k hk
    have hk0 : k = 0 := by simpa using hk
    subst hk0
    rw [makedirsEntries_single] at h
    cases hl : es.lookup n with
    | some t => rw [hl] at h; simp at h
    | none =>
      rw [hl] at h
      simp at h
      subst h
      exact ⟨.nil, by simp [resolve_cons, Entries.lookup]⟩
  | n :: r :: rs, es, es', h => by
    intro k hk
    rw [makedirsEntries_cons₂] at h
    cases hl : es.lookup n with
    | some t =>
      rw [hl] at h
      cases t with
      | file c s ms => simp at h
      | dir sub =>
        simp at h
        obtain ⟨sub', hmk, hes'⟩ := h
        subst hes'
        have hlk : (es.replaceFirst n (.dir sub')).lookup n = some (.dir sub') :=
          lookup_replaceFirst_self es n _ (by simp [hl])
        cases k with
        | zero => exact ⟨sub', by simp [resolve_cons, hlk]⟩
        | succ j =>
          have hj : j < (r :: rs).length := by simpa using hk
          obtain ⟨s, hs⟩ := makedirs_resolve (r :: rs) sub sub' hmk j hj
          refine ⟨s, ?_⟩
          have htk : (n :: r :: rs).take (j + 1 + 1) = n :: ((r :: rs).take (j + 1)) := rfl
          rw [htk, resolve_cons, hlk]
          cases htk2 : (r :: rs).take (j + 1) with
          | nil => simp at htk2
          | cons a as =>
            rw [htk2] at hs
            rw [Option.some_bind, ← resolve_eq_find, hs]
    | none =>
      rw [hl] at h
      simp at h
      obtain ⟨sub', hmk, hes'⟩ := h
      subst hes'
      have hlk : (Entries.cons n (FSTree.dir sub') es).lookup n = some (.dir sub') := by
        simp
      cases k with
      | zero => exact ⟨sub', by simp [resolve_cons, hlk]⟩
      | succ j =>
        have hj : j < (r :: rs).length := by simpa using hk
        obtain ⟨s, hs⟩ := makedirs_resolve (r :: rs) .nil sub' hmk j hj
        refine ⟨s, ?_⟩
        have htk : (n :: r :: rs).take (j + 1 + 1) = n :: ((r :: rs).take (j + 1)) := rfl
        rw [htk, resolve_cons, hlk]
        cases htk2 : (r :: rs).take (j + 1) with
        | nil => simp at htk2
        | cons a as =>
          rw [htk2] at hs
          rw [Option.some_bind, ← resolve_eq_find, hs]

/-- On a path where nothing exists yet, `makedirs` succeeds exactly when
the path is creatable: nonempty, with no existing ancestor that is a
regular file. -/
theorem makedirs_isSome : ∀ (p : Path) (es : Entries), resolve es p = none →
    (makedirsEntries es p).isSome = ancestorsOk es p
  | [], es, _ => by simp [makedirsEntries_nil_path, ancestorsOk]
  | [n], es, h => by
    have hl : es.lookup n = none := by
      cases hl : es.lookup n with
      | none => rfl
      | some t => rw [resolve_cons, hl] at h; simp at h
    rw [makedirsEntries_single, ancestorsOk_single, hl]
    rfl
  | n :: r :: rs, es, h => by
    rw [makedirsEntries_cons₂, ancestorsOk_cons₂]
    cases hl : es.lookup n with
    | none =>
      have hnil : resolve Entries.nil (r :: rs) = none := by
        rw [resolve_cons]
        rfl
      have hIH := makedirs_isSome (r :: rs) .nil hnil
      rw [ancestorsOk_nil_entries] at hIH
      obtain ⟨sub', hsub'⟩ := Option.isSome_iff_exists.mp hIH
      simp [hsub']
    | some t =>
      cases t with
      | file c s ms => simp
      | dir sub =>
        have hsub : resolve sub (r :: rs) = none := by
          rw [resolve_cons, hl, Option.some_bind, ← resolve_eq_find] at h
          exact h
        have hIH := makedirs_isSome (r :: rs) sub hsub
        cases hmk : makedirsEntries sub (r :: rs) <;>
          rw [hmk] at hIH <;> simpa [hmk] using hIH

/-- A path that the state resolves to a directory can always be removed by
`rmtree`. -/
theorem rmtree_isSome : ∀ (p : Path) (es : Entries),
    os_path_isdir es p = true → (rmtreeEntries es p).isSome
  | [], es, h => by simp [os_path_isdir] at h
  | [n], es, h => by
    rw [rmtreeEntries_single]
    simp [os_path_isdir, resolve_cons] at h
    cases hl : es.lookup n with
    | none => rw [hl] at h; simp at h
    | some t =>
      rw [hl] at h
      cases t with
      | file c s ms => simp at h
      | dir sub => simp
  | n :: r :: rs, es, h => by
    rw [rmtreeEntries_cons₂]
    simp [os_path_isdir, resolve_cons] at h
    cases hl : es.lookup n with
    | none => rw [hl] at h; simp at h
    | some t =>
      rw [hl] at h
      cases t with
      | file c s ms => simp at h
      | dir sub =>
        rw [Option.some_bind, ← resolve_eq_find] at h
        have hIH := rmtree_isSome (r :: rs) sub (by simp [os_path_isdir]; exact h)
        obtain ⟨sub', hsub'⟩ := Option.isSome_iff_exists.mp hIH
        simp [hsub']

/-- After a successful `rmtree` on a well-formed state, neither the removed
path nor anything below it resolves to an object. -/
theorem rmtree_resolve_none : ∀ (p : Path) (es es' : Entries),
    es.nodupKeys = true → es.wfChildren = true →
    rmtreeEntries es p = some es' → ∀ q : Path, resolve es' (p ++ q) = none
  | [], es, es', _, _, h => by simp [rmtreeEntries_nil_path] at h
  | [n], es, es', hn, _, h => by
    intro q
    rw [rmtreeEntries_single] at h
    cases hl : es.lookup n with
    | none => rw [hl] at h; simp at h
    | some t =>
      rw [hl] at h
      cases t with
      | file c s ms => simp at h
      | dir sub =>
        simp at h
        subst h
        rw [List.cons_append, resolve_cons, lookup_eraseFirst es n hn]
        rfl
  | n :: r :: rs, es, es', hn, hw, h => by
    intro q
    rw [rmtreeEntries_cons₂] at h
    cases hl : es.lookup n with
    | none => rw [hl] at h; simp at h
    | some t =>
      rw [hl] at h
      cases t with
      | file c s ms => simp at h
      | dir sub =>
        simp at h
        obtain ⟨sub', hrm, hes'⟩ := h
        subst hes'
        have hwsub : (FSTree.dir sub).wf = true := wfChildren_lookup es n _ hw hl
        rw [wf_dir] at hwsub
        simp at hwsub
        have hrec := rmtree_resolve_none (r :: rs) sub sub' hwsub.1 hwsub.2 hrm q
        rw [List.cons_append] at hrec
        rw [List.cons_append, resolve_cons,
          lookup_replaceFirst_self es n _ (by simp [hl]), Option.some_bind,
          List.cons_append, ← resolve_eq_find]
        exact hrec

end TexParser

namespace TexParser

/-! Bridging lemmas for the operations. -/

/-- A path that is a directory resolves to a directory object. -/
theorem isdir_resolve (es : Entries) (p : Path) (h : os_path_isdir es p = true) :
    ∃ sub, resolve es p = some (.dir sub) := by
  unfold os_path_isdir at h
  cases hr : resolve es p with
  | none => rw [hr] at h; simp at h
  | some t =>
    rw [hr] at h
    cases t with
    | file c s ms => simp at h
    | dir sub => exact ⟨sub, rfl⟩

/-- The file test of a joined path is the file test relative to the object
the first part resolves to. -/
theorem os_path_isfile_append (es : Entries) (n : String) (p' : Path) (t : FSTree)
    (h : resolve es (n :: p') = some t) (q : Path) :
    os_path_isfile es ((n :: p') ++ q) = t.isFileAt q := by
  unfold os_path_isfile FSTree.isFileAt
  rw [resolve_append es n p' q, h, Option.some_bind]

theorem list_files_eq_notFound (es : Entries) (p : Path) (b : Bool)
    (h : os_path_isdir es p = false) :
    list_files es p b = (.error .notFound, es) := by
  simp [list_files, is_directory, h]

theorem list_files_eq_flat (es : Entries) (p : Path) (h : os_path_isdir es p = true) :
    list_files es p false =
      (.ok (((os_listdir es p).filter
        (fun f => (is_file es (p ++ [f])).1)).map (fun f => [f])), es) := by
  simp [list_files, is_directory, h]

theorem list_files_eq_walk (es : Entries) (p : Path) (sub : Entries)
    (h : os_path_isdir es p = true) (hres : resolve es p = some (.dir sub)) :
    list_files es p true = (.ok (walkEntries sub), es) := by
  simp [list_files, is_directory, h, hres, walkFiles_dir]

/-- C1: on an existing directory, `list_files` without subdirectories
returns exactly the one-component names of the immediate children that are
regular files, and with subdirectories exactly the nonempty relative paths
of the regular files anywhere in the subtree — in both modes nothing else,
in particular never a directory entry. -/
theorem list_files_spec_C1 (es : Entries) (p : Path) (hwf : stateWf es = true)
    (hdir : (is_directory es p).1 = true) :
    (∃ l, list_files es p false = (.ok l, es) ∧
      ∀ q : Path, q ∈ l ↔ ∃ n, q = [n] ∧ (is_file es (p ++ [n])).1 = true) ∧
    (∃ l, list_files es p true = (.ok l, es) ∧
      ∀ q : Path, q ∈ l ↔ q ≠ [] ∧ (is_file es (p ++ q)).1 = true) := by
  have hd : os_path_isdir es p = true := hdir
  obtain ⟨sub, hres⟩ := isdir_resolve es p hd
  cases p with
  | nil => rw [resolve_nil] at hres; cases hres
  | cons n p' =>
    constructor
    · refine ⟨_, list_files_eq_flat es (n :: p') hd, fun q => ?_⟩
      constructor
      · intro hq
        obtain ⟨f, hf, rfl⟩ := List.mem_map.mp hq
        obtain ⟨hmem, hfile⟩ := List.mem_filter.mp hf
        exact ⟨f, rfl, hfile⟩
      · rintro ⟨f, rfl, hfile⟩
        apply List.mem_map.mpr
        refine ⟨f, List.mem_filter.mpr ⟨?_, hfile⟩, rfl⟩
        have hff : os_path_isfile es ((n :: p') ++ [f]) = true := hfile
        rw [os_path_isfile_append es n p' _ hres [f]] at hff
        simp only [os_listdir, hres]
        rw [← lookup_isSome_iff]
        cases hlk : sub.lookup f with
        | none =>
          rw [isFileAt_dir_cons_none sub f [] hlk] at hff
          simp at hff
        | some t => simp
    · refine ⟨_, list_files_eq_walk es (n :: p') sub hd hres, fun q => ?_⟩
      have hwsub : (FSTree.dir sub).wf = true := wf_resolve es _ _ hwf hres
      rw [wf_dir] at hwsub
      simp at hwsub
      rw [mem_walkEntries sub hwsub.1 hwsub.2 q]
      constructor
      · rintro ⟨hne, hfile⟩
        refine ⟨hne, ?_⟩
        show os_path_isfile es ((n :: p') ++ q) = true
        rw [os_path_isfile_append es n p' _ hres q]
        exact hfile
      · rintro ⟨hne, hfile⟩
        refine ⟨hne, ?_⟩
        have hff : os_path_isfile es ((n :: p') ++ q) = true := hfile
        rw [os_path_isfile_append es n p' _ hres q] at hff
        exact hff

/-- Witness for C1 at the sample filesystem and its directory `d`. -/
theorem list_files_spec_C1_witness :
    stateWf sampleFS = true ∧ (is_directory sampleFS ["d"]).1 = true ∧
    ((∃ l, list_files sampleFS ["d"] false = (.ok l, sampleFS) ∧
      ∀ q : Path, q ∈ l ↔ ∃ n, q = [n] ∧ (is_file sampleFS (["d"] ++ [n])).1 = true) ∧
    (∃ l, list_files sampleFS ["d"] true = (.ok l, sampleFS) ∧
      ∀ q : Path, q ∈ l ↔ q ≠ [] ∧ (is_file sampleFS (["d"] ++ q)).1 = true)) :=
  ⟨by decide, by decide, list_files_spec_C1 sampleFS ["d"] (by decide) (by decide)⟩

/-- C2: every path in the result of a recursive `list_files`, joined with
the listed directory, satisfies `is_file`. -/
theorem list_files_roundtrip_C2 (es : Entries) (p : Path) (hwf : stateWf es = true)
    (l : List Path) (hl : (list_files es p true).1 = .ok l) (q : Path) (hq : q ∈ l) :
    (is_file es (p ++ q)).1 = true := by
  cases hd : os_path_isdir es p with
  | false =>
    rw [list_files_eq_notFound es p true hd] at hl
    simp at hl
  | true =>
    obtain ⟨sub, hres⟩ := isdir_resolve es p hd
    cases p with
    | nil => rw [resolve_nil] at hres; cases hres
    | cons n p' =>
      rw [list_files_eq_walk es (n :: p') sub hd hres] at hl
      simp at hl
      subst hl
      have hwsub : (FSTree.dir sub).wf = true := wf_resolve es _ _ hwf hres
      rw [wf_dir] at hwsub
      simp at hwsub
      have hmem := (mem_walkEntries sub hwsub.1 hwsub.2 q).mp hq
      show os_path_isfile es ((n :: p') ++ q) = true
      rw [os_path_isfile_append es n p' _ hres q]
      exact hmem.2

/-- Witness for C2 at the sample filesystem: the nested path `s/b` listed
under `d` is a regular file when joined back. -/
theorem list_files_roundtrip_C2_witness :
    stateWf sampleFS = true ∧
    (list_files sampleFS ["d"] true).1 = .ok [["a"], ["s", "b"]] ∧
    ["s", "b"] ∈ [["a"], ["s", "b"]] ∧
    (is_file sampleFS (["d"] ++ ["s", "b"])).1 = true :=
  ⟨by decide, rfl, by decide,
    list_files_roundtrip_C2 sampleFS ["d"] (by decide) [["a"], ["s", "b"]]
      rfl ["s", "b"] (by decide)⟩

end TexParser

namespace TexParser

/-- C3: `is_utf8_encoded` fails with NotFound exactly when the path is not
an existing regular file; otherwise it reads the whole content and returns
whether the byte sequence is valid UTF-8 — a decoding failure yields the
value `false`, not an error. -/
theorem is_utf8_encoded_spec_C3 (es : Entries) (p : Path) :
    ((is_utf8_encoded es p).1 = .error .notFound ↔ (is_file es p).1 = false) ∧
    (∀ c s ms, resolve es p = some (.file c s ms) →
      is_utf8_encoded es p = (.ok (utf8Valid c), es)) := by
  constructor
  · cases hf : os_path_isfile es p with
    | false => simp [is_utf8_encoded, is_file, hf]
    | true => simp [is_utf8_encoded, is_file, hf]
  · intro c s ms hres
    have hf : os_path_isfile es p = true := by simp [os_path_isfile, hres]
    simp [is_utf8_encoded, is_file, hf, os_read_bytes, hres]

/-- Witness for C3: the sample file `f` (ASCII text) validates as UTF-8
and the sample file `g` (a lone byte 255) yields the value `false`. -/
theorem is_utf8_encoded_spec_C3_witness :
    resolve sampleFS ["g"] = some (.file [255] 11 0) ∧
    is_utf8_encoded sampleFS ["g"] = (.ok false, sampleFS) ∧
    resolve sampleFS ["f"] = some (.file [116, 101, 115, 116, 32, 100, 97, 116, 97] 7 0) ∧
    is_utf8_encoded sampleFS ["f"] = (.ok true, sampleFS) :=
  ⟨rfl, (is_utf8_encoded_spec_C3 sampleFS ["g"]).2 [255] 11 0 rfl,
   rfl, (is_utf8_encoded_spec_C3 sampleFS ["f"]).2 _ 7 0 rfl⟩

/-- C4: `get_file_timestamp` fails with NotFound exactly when the path is
not an existing regular file; on a regular file it formats the recorded
whole-second modification time — the sub-second part plays no role — as an
ISO-8601 UTC string, and the recorded second 1682000000 formats as
`2023-04-20T14:13:20+00:00`. -/
theorem get_file_timestamp_spec_C4 (es : Entries) (p : Path) :
    ((get_file_timestamp es p).1 = .error .notFound ↔ (is_file es p).1 = false) ∧
    (∀ c s ms, resolve es p = some (.file c s ms) →
      get_file_timestamp es p = (.ok (isoformatUTC s), es)) ∧
    isoformatUTC 1682000000 = "2023-04-20T14:13:20+00:00" := by
  refine ⟨?_, ?_, by decide⟩
  · cases hf : os_path_isfile es p with
    | false => simp [get_file_timestamp, is_file, hf]
    | true => simp [get_file_timestamp, is_file, hf]
  · intro c s ms hres
    have hf : os_path_isfile es p = true := by simp [os_path_isfile, hres]
    simp [get_file_timestamp, is_file, hf, os_stat_mtime_int, hres]

/-- Witness for C4: the sample file `d/a` is recorded at second 1682000000
plus half a second, and its timestamp is the formatted whole second. -/
theorem get_file_timestamp_spec_C4_witness :
    resolve sampleFS ["d", "a"] = some (.file [104, 105] 1682000000 500000000) ∧
    get_file_timestamp sampleFS ["d", "a"] = (.ok (isoformatUTC 1682000000), sampleFS) ∧
    isoformatUTC 1682000000 = "2023-04-20T14:13:20+00:00" :=
  ⟨rfl,
   (get_file_timestamp_spec_C4 sampleFS ["d", "a"]).2.1 [104, 105] 1682000000 500000000 rfl,
   (get_file_timestamp_spec_C4 sampleFS ["d", "a"]).2.2⟩

/-- C7: `get_file_size` fails with NotFound exactly when the path is not
an existing regular file; on a regular file of N bytes it returns N. -/
theorem get_file_size_spec_C7 (es : Entries) (p : Path) :
    ((get_file_size es p).1 = .error .notFound ↔ (is_file es p).1 = false) ∧
    (∀ c s ms, resolve es p = some (.file c s ms) →
      get_file_size es p = (.ok c.length, es)) := by
  constructor
  · cases hf : os_path_isfile es p with
    | false => simp [get_file_size, is_file, hf]
    | true => simp [get_file_size, is_file, hf]
  · intro c s ms hres
    have hf : os_path_isfile es p = true := by simp [os_path_isfile, hres]
    simp [get_file_size, is_file, hf, os_path_getsize, hres]

/-- Witness for C7: the sample file `f` holds the 9 bytes of `test data`
and its size is 9. -/
theorem get_file_size_spec_C7_witness :
    resolve sampleFS ["f"] = some (.file [116, 101, 115, 116, 32, 100, 97, 116, 97] 7 0) ∧
    get_file_size sampleFS ["f"] = (.ok 9, sampleFS) :=
  ⟨rfl, (get_file_size_spec_C7 sampleFS ["f"]).2 [116, 101, 115, 116, 32, 100, 97, 116, 97] 7 0 rfl⟩

/-- C8: at a path where no filesystem object exists, `is_file`,
`is_directory` and `is_object` all return `false`; being total
`Bool`-valued functions of the state and the path, the three translated
predicates can raise no error on any path. -/
theorem predicates_absent_spec_C8 (es : Entries) (p : Path)
    (h : resolve es p = none) :
    (is_file es p).1 = false ∧ (is_directory es p).1 = false ∧
    (is_object es p).1 = false := by
  refine ⟨?_, ?_, ?_⟩ <;>
    simp [is_file, is_directory, is_object, os_path_isfile, os_path_isdir,
      os_path_exists, h]

/-- Witness for C8 at an absent path of the sample filesystem. -/
theorem predicates_absent_spec_C8_witness :
    resolve sampleFS ["zzz"] = none ∧
    ((is_file sampleFS ["zzz"]).1 = false ∧ (is_directory sampleFS ["zzz"]).1 = false ∧
      (is_object sampleFS ["zzz"]).1 = false) :=
  ⟨rfl, predicates_absent_spec_C8 sampleFS ["zzz"] rfl⟩

/-- C9: the seven query operations return the filesystem state they were
given — only `create_directory` and `remove_directory` ever return a
changed state. -/
theorem queries_preserve_state_C9 (es : Entries) (p : Path) (b : Bool) :
    (is_file es p).2 = es ∧ (is_directory es p).2 = es ∧ (is_object es p).2 = es ∧
    (get_file_size es p).2 = es ∧ (get_file_timestamp es p).2 = es ∧
    (is_utf8_encoded es p).2 = es ∧ (list_files es p b).2 = es := by
  refine ⟨rfl, rfl, rfl, ?_, ?_, ?_, ?_⟩
  · cases hf : os_path_isfile es p <;> simp [get_file_size, is_file, hf]
  · cases hf : os_path_isfile es p <;> simp [get_file_timestamp, is_file, hf]
  · cases hf : os_path_isfile es p <;> simp [is_utf8_encoded, is_file, hf]
  · cases hd : os_path_isdir es p <;> cases b <;> simp [list_files, is_directory, hd]

/-- C10: when `create_directory` rejects with AlreadyExists or
`remove_directory` rejects with NotFound — the precondition checks, made
before any mutating OS call — the filesystem state is unchanged. -/
theorem precondition_failure_state_C10 (es : Entries) (p : Path) :
    ((create_directory es p).1 = .error .alreadyExists → (create_directory es p).2 = es) ∧
    ((remove_directory es p).1 = .error .notFound → (remove_directory es p).2 = es) := by
  constructor
  · intro h
    cases he : os_path_exists es p with
    | true => simp [create_directory, is_object, he]
    | false =>
      cases hmk : makedirsEntries es p with
      | some es' => simp [create_directory, is_object, he, hmk] at h
      | none => simp [create_directory, is_object, he, hmk]
  · intro h
    cases hd : os_path_isdir es p with
    | false => simp [remove_directory, is_directory, hd]
    | true =>
      cases hrm : rmtreeEntries es p with
      | some es' => simp [remove_directory, is_directory, hd, hrm] at h
      | none => simp [remove_directory, is_directory, hd, hrm]

/-- Witness for C10: creating the existing `d` and removing the regular
file `f` of the sample filesystem both reject and leave the state as it
was. -/
theorem precondition_failure_state_C10_witness :
    (create_directory sampleFS ["d"]).1 = .error .alreadyExists ∧
    (create_directory sampleFS ["d"]).2 = sampleFS ∧
    (remove_directory sampleFS ["f"]).1 = .error .notFound ∧
    (remove_directory sampleFS ["f"]).2 = sampleFS :=
  ⟨rfl, (precondition_failure_state_C10 sampleFS ["d"]).1 rfl,
   rfl, (precondition_failure_state_C10 sampleFS ["f"]).2 rfl⟩

end TexParser

namespace TexParser

/-- A path at which `create_directory` succeeded resolves to a directory. -/
theorem makedirs_resolve_full (p : Path) (es es' : Entries)
    (h : makedirsEntries es p = some es') :
    ∃ sub, resolve es' p = some (.dir sub) := by
  cases p with
  | nil => rw [makedirsEntries_nil_path] at h; cases h
  | cons n p' =>
    have hh := makedirs_resolve (n :: p') es es' h p'.length (by simp)
    simpa using hh

end TexParser

namespace TexParser

/-- A state with no object at a path resolves that path to nothing. -/
theorem resolve_none_of_not_exists (es : Entries) (p : Path)
    (h : os_path_exists es p = false) : resolve es p = none := by
  unfold os_path_exists at h
  cases hr : resolve es p with
  | none => rfl
  | some t => rw [hr] at h; simp at h

/-- C5 counterexample: below the regular file `f` of the sample filesystem
nothing exists at `f/z`, yet `create_directory` does not create the
directory there — it fails with OSFailure (the wrapped `OSError` that
`os.makedirs` raises on a non-directory ancestor) and leaves the state
unchanged, so the claimed "otherwise it creates the directory" is false. -/
theorem create_directory_claim_cex_C5 :
    os_path_exists sampleFS ["f", "z"] = false ∧
    create_directory sampleFS ["f", "z"] = (.error .osFailure, sampleFS) ∧
    os_path_isdir ((create_directory sampleFS ["f", "z"]).2) ["f", "z"] = false :=
  ⟨rfl, rfl, rfl⟩

/-- C5 (amended): `create_directory` fails with AlreadyExists exactly when
an object exists at the path; when nothing exists there it creates the
directory and all missing intermediate ancestors provided the path is
creatable (nonempty, with no existing ancestor that is a regular file),
and otherwise fails with OSFailure leaving the state unchanged; hence
whenever a call does not fail with OSFailure, an immediately repeated call
raises AlreadyExists. -/
theorem create_directory_amended_C5 (es : Entries) (p : Path) :
    ((create_directory es p).1 = .error .alreadyExists ↔ (is_object es p).1 = true) ∧
    ((is_object es p).1 = false → ancestorsOk es p = true →
      ∃ es', create_directory es p = (.ok (), es') ∧
        (is_directory es' p).1 = true ∧
        ∀ k, k < p.length → (is_directory es' (p.take (k + 1))).1 = true) ∧
    ((is_object es p).1 = false → ancestorsOk es p = false →
      create_directory es p = (.error .osFailure, es)) ∧
    ((create_directory es p).1 ≠ .error .osFailure →
      (create_directory (create_directory es p).2 p).1 = .error .alreadyExists) := by
  refine ⟨?_, ?_, ?_, ?_⟩
  · cases he : os_path_exists es p with
    | true => simp [create_directory, is_object, he]
    | false =>
      cases hmk : makedirsEntries es p with
      | some es' => simp [create_directory, is_object, he, hmk]
      | none => simp [create_directory, is_object, he, hmk]
  · intro he ha
    have hres : resolve es p = none := resolve_none_of_not_exists es p he
    have hsome : (makedirsEntries es p).isSome = true := by
      rw [makedirs_isSome p es hres, ha]
    obtain ⟨es', hmk⟩ := Option.isSome_iff_exists.mp hsome
    have he' : os_path_exists es p = false := he
    refine ⟨es', by simp [create_directory, is_object, he', hmk], ?_, ?_⟩
    · obtain ⟨sub, hsub⟩ := makedirs_resolve_full p es es' hmk
      simp [is_directory, os_path_isdir, hsub]
    · intro k hk
      obtain ⟨sub, hsub⟩ := makedirs_resolve p es es' hmk k hk
      simp [is_directory, os_path_isdir, hsub]
  · intro he ha
    have hres : resolve es p = none := resolve_none_of_not_exists es p he
    have hnone : (makedirsEntries es p).isSome = false := by
      rw [makedirs_isSome p es hres, ha]
    have hmk : makedirsEntries es p = none := by
      cases hm : makedirsEntries es p with
      | none => rfl
      | some es' => rw [hm] at hnone; simp at hnone
    have he' : os_path_exists es p = false := he
    simp [create_directory, is_object, he', hmk]
  · intro hno
    cases he : os_path_exists es p with
    | true => simp [create_directory, is_object, he]
    | false =>
      cases hmk : makedirsEntries es p with
      | none => simp [create_directory, is_object, he, hmk] at hno
      | some es' =>
        obtain ⟨sub, hres'⟩ := makedirs_resolve_full p es es' hmk
        have he' : (resolve es p).isSome = false := he
        simp [create_directory, is_object, os_path_exists, he', hmk, hres']

/-- Witness for the amended C5: below the sample filesystem nothing exists
at `x/y`, the path is creatable, creation succeeds and yields directories
at `x` and `x/y`, and the repeated call raises AlreadyExists. -/
theorem create_directory_amended_C5_witness :
    (is_object sampleFS ["x", "y"]).1 = false ∧
    ancestorsOk sampleFS ["x", "y"] = true ∧
    (∃ es', create_directory sampleFS ["x", "y"] = (.ok (), es') ∧
      (is_directory es' ["x", "y"]).1 = true ∧
      ∀ k, k < (["x", "y"] : Path).length →
        (is_directory es' ((["x", "y"] : Path).take (k + 1))).1 = true) ∧
    (create_directory (create_directory sampleFS ["x", "y"]).2 ["x", "y"]).1 =
      .error .alreadyExists :=
  ⟨by decide, by decide,
   (create_directory_amended_C5 sampleFS ["x", "y"]).2.1 (by decide) (by decide),
   (create_directory_amended_C5 sampleFS ["x", "y"]).2.2.2
     (by intro h; exact Except.noConfusion h)⟩

/-- C6: `remove_directory` fails with NotFound exactly when the path is
not an existing directory; on an existing directory it succeeds and
afterwards neither the removed path nor any path nested below it is an
existing object. -/
theorem remove_directory_spec_C6 (es : Entries) (p : Path)
    (hwf : stateWf es = true) :
    ((remove_directory es p).1 = .error .notFound ↔ (is_directory es p).1 = false) ∧
    ((is_directory es p).1 = true →
      ∃ es', remove_directory es p = (.ok (), es') ∧
        (is_object es' p).1 = false ∧
        ∀ q : Path, q ≠ [] → (is_object es' (p ++ q)).1 = false) := by
  have hwf' : es.nodupKeys = true ∧ es.wfChildren = true := by
    simpa [stateWf] using hwf
  cases hd : os_path_isdir es p with
  | false =>
    constructor
    · simp [remove_directory, is_directory, hd]
    · intro h
      have h' : os_path_isdir es p = true := h
      rw [hd] at h'
      cases h'
  | true =>
    obtain ⟨es', hrm⟩ := Option.isSome_iff_exists.mp (rmtree_isSome p es hd)
    constructor
    · simp [remove_directory, is_directory, hd, hrm]
    · intro _
      refine ⟨es', by simp [remove_directory, is_directory, hd, hrm], ?_, ?_⟩
      · have hq := rmtree_resolve_none p es es' hwf'.1 hwf'.2 hrm []
        rw [List.append_nil] at hq
        simp [is_object, os_path_exists, hq]
      · intro q _
        have hq := rmtree_resolve_none p es es' hwf'.1 hwf'.2 hrm q
        simp [is_object, os_path_exists, hq]

/-- Witness for C6: removing the sample directory `d` succeeds and leaves
no object at `d` nor below it. -/
theorem remove_directory_spec_C6_witness :
    stateWf sampleFS = true ∧ (is_directory sampleFS ["d"]).1 = true ∧
    (∃ es', remove_directory sampleFS ["d"] = (.ok (), es') ∧
      (is_object es' ["d"]).1 = false ∧
      ∀ q : Path, q ≠ [] → (is_object es' (["d"] ++ q)).1 = false) :=
  ⟨by decide, by decide,
   (remove_directory_spec_C6 sampleFS ["d"] (by decide)).2 (by decide)⟩

end TexParser
